import Mathlib

/-!
# Verification of the `ella-to/sse` Server-Sent-Events library

Shallow embedding of the SSE framing engine:

* the frame codec of `msg.go` (`Message.Read` = encode, `Message.Write` = decode),
* the stream decoder of `receiver.go` (`readLine`, `parseMessage`, `Parse`),
* the receiver of `receiver.go` (`receiver.Receive`, `receiver.Close`),
* the pusher of the raw-pusher source file (`rawPusher.Push` / `Close` / `ping`,
  `NewPusher`, `setTimeout`),
* the HTTP reconnect policy (modelled from the spec; its implementation is not
  part of the source tree, only its tests are).

Go `string` values are embedded as `List Char`; Go byte streams as `List Char`
(the wire format is ASCII text, one byte per character in every claim).
-/

set_option maxHeartbeats 1000000

namespace SSE

/-- The event record of `msg.go` (`type Message struct`). The Go `string`
fields `Id`, `Event`, `Data` are embedded as `List Char`; the empty list plays
the role of the empty Go string ("absent" on the wire). The private reader
bookkeeping fields (`readerRemaining`, `buffer`) only drive chunked `Read`
calls and buffer pooling, and are not part of the record's value. -/
structure Message where
  Id : List Char
  Event : List Char
  Data : List Char
deriving DecidableEq

/-- The fully-empty record: no id, no event, no data.  `NewPingEvent()` of
`msg.go` returns exactly this record. -/
def emptyMessage : Message := ⟨[], [], []⟩

/-- Encoder: the byte sequence produced by `Message.Read` of `msg.go` when the
whole message is drained.  `Read` appends an `id: `/`event: `/`data: ` line for
each non-empty field, in that order; if nothing was appended it emits the fixed
ping frame `": ping\n\n"`, otherwise a single terminating blank line.  (The
chunking across multiple `Read` calls and the buffer pooling reproduce this
same byte sequence and are not modelled.) -/
def msgRead (m : Message) : List Char :=
  let buf :=
    (if m.Id = [] then [] else "id: ".toList ++ m.Id ++ ['\n'])
    ++ (if m.Event = [] then [] else "event: ".toList ++ m.Event ++ ['\n'])
    ++ (if m.Data = [] then [] else "data: ".toList ++ m.Data ++ ['\n'])
  if buf = [] then ": ping\n\n".toList else buf ++ ['\n']

/-- Split a single line at its first `':'` : `Message.Write` of `msg.go` scans
the field name up to the first `':'` (or `'\n'`/end of input, in which case the
line is skipped, which is the `none` result here).  Lines handed to this
function never contain `'\n'`. -/
def splitColon : List Char → Option (List Char × List Char)
  | [] => none
  | c :: rest =>
    if c = ':' then some ([], rest)
    else (splitColon rest).map (fun p => (c :: p.1, p.2))

/-- The field switch of `Message.Write`: `id`/`event`/`data` overwrite the
corresponding attribute, any other field name is ignored. -/
def applyField (m : Message) (name value : List Char) : Message :=
  if name = "id".toList then { m with Id := value }
  else if name = "event".toList then { m with Event := value }
  else if name = "data".toList then { m with Data := value }
  else m

/-- One iteration of the `Message.Write` loop, acting on one `'\n'`-free line:
find the first `':'` (no colon before the line end means the line is skipped),
drop one space after the colon if present, take the rest of the line as the
value, and apply the field.  The `true` flag is the early `return` taken when
the field is `event` with value `ping`: all three fields are reset and the
rest of the input is not looked at. -/
def writeLine (m : Message) (line : List Char) : Message × Bool :=
  match splitColon line with
  | none => (m, false)
  | some (name, afterColon) =>
    let value := if afterColon.head? = some ' ' then afterColon.tail else afterColon
    if name = "event".toList ∧ value = "ping".toList then (emptyMessage, true)
    else (applyField m name value, false)

/-- The `Message.Write` loop over the `'\n'`-separated segments of the input;
the `true` flag of `writeLine` is the early `return` that abandons the
remaining bytes. -/
def writeLines (m : Message) : List (List Char) → Message
  | [] => m
  | l :: ls =>
    match writeLine m l with
    | (m', true) => m'
    | (m', false) => writeLines m' ls

/-- The `'\n'`-separated segments of a byte sequence, including the (possibly
empty) trailing segment after the last `'\n'` — exactly the successive
name/value scans of the `Message.Write` index loop, each of which stops at
`'\n'` or at the end of the input. -/
def splitSegs : List Char → List (List Char)
  | [] => [[]]
  | c :: rest =>
    if c = '\n' then [] :: splitSegs rest
    else
      match splitSegs rest with
      | [] => [[c]]
      | s :: ss => (c :: s) :: ss

/-- Decoder: `Message.Write` of `msg.go`.  It first resets all three fields
(the result does not depend on the receiver), then runs the line loop.
`Message.Write` always returns `(len(b), nil)`: it has no error outcome, so the
embedding is a total function into `Message`. -/
def msgWrite (b : List Char) : Message :=
  writeLines emptyMessage (splitSegs b)

/-! ## Stream decoder (`receiver.go`) -/

/-- The `readLine` loop of `receiver.go`, iterated over the whole stream:
`readLine` consumes bytes up to and including the next `'\n'` and yields the
line without the `'\n'`; if the reader errors (end of stream) before a `'\n'`
is seen, the partial line is discarded and the error is returned, ending the
list.  `acc` is the buffer being filled by the current `readLine` call. -/
def streamLines (acc : List Char) : List Char → List (List Char)
  | [] => []
  | c :: rest =>
    if c = '\n' then acc :: streamLines [] rest
    else streamLines (acc ++ [c]) rest

/-- Split a line at the first occurrence of the two-byte separator `": "`
(`bytes.Index(line, []byte(": "))` in `parseMessage`); `none` when the line
has no `": "` and is therefore ignored. -/
def splitSep : List Char → Option (List Char × List Char)
  | [] => none
  | c :: rest =>
    if c = ':' ∧ rest.head? = some ' ' then some ([], rest.tail)
    else (splitSep rest).map (fun p => (c :: p.1, p.2))

/-- The field switch of `parseMessage` in `receiver.go`: `id`, `event` and
`data` overwrite the record's attribute, other fields are ignored.  (Unlike
the codec's `Message.Write`, `parseMessage` has no special case for
`event: ping`.) -/
def applyRecvField (m : Message) (name value : List Char) : Message :=
  if name = "id".toList then { m with Id := value }
  else if name = "event".toList then { m with Event := value }
  else if name = "data".toList then { m with Data := value }
  else m

/-- `parseMessage` of `receiver.go`, over the stream's line list.  Returns the
accumulated record, `true` iff the loop ended because `readLine` hit the end
of the stream (`io.EOF`), and the remaining lines.  `lastComment` is the
`lastMsgWasComment` flag: a comment line (first byte `':'`) sets it, and an
empty line while it is set is consumed (resetting it) instead of terminating
the frame. -/
def parseMsgLines (m : Message) (lastComment : Bool) :
    List (List Char) → Message × Bool × List (List Char)
  | [] => (m, true, [])
  | line :: rest =>
    if line = [] then
      if lastComment then parseMsgLines m false rest
      else (m, false, rest)
    else if line.head? = some ':' then parseMsgLines m true rest
    else
      match splitSep line with
      | none => parseMsgLines m lastComment rest
      | some (name, value) => parseMsgLines (applyRecvField m name value) lastComment rest

/-- The producer loop of `Parse` in `receiver.go`, over the line list, with
explicit fuel (any fuel above the number of remaining lines is enough, see
`parseRecordsAux_fuel`).  Each turn runs `parseMessage` on a fresh record,
sends the result — even when `parseMessage` returned with `io.EOF` — and stops
after sending on end of stream or on a record whose event is `done`. -/
def parseRecordsAux : Nat → List (List Char) → List Message
  | 0, _ => []
  | fuel + 1, ls =>
    match parseMsgLines emptyMessage false ls with
    | (msg, true, _) => [msg]
    | (msg, false, rest) =>
      if msg.Event = "done".toList then [msg]
      else msg :: parseRecordsAux fuel rest

/-- `Parse` of `receiver.go`: the full sequence of records sent on the channel
for a given byte stream (the channel is closed afterwards; the list ends where
the channel closes). -/
def parseRecords (input : List Char) : List Message :=
  parseRecordsAux ((streamLines [] input).length + 1) (streamLines [] input)

/-! ## Pusher (`rawPusher` of the pusher source file) -/

/-- The `rawPusher` state.  `timeout` is the Go `time.Duration` (an `int64`
nanosecond count, embedded as `Int`); `clearTimeout` is `true` iff the field
holds a live cancel function, i.e. a keepalive timer is currently armed;
`written` is the byte log of the underlying writer `w`. -/
structure RawPusher where
  timeout : Int
  clearTimeout : Bool
  closed : Bool
  written : List Char
deriving DecidableEq

/-- `NewPusher(w, timeout)` for a plain writer: `&rawPusher{w: w, timeout:
timeout}` — note that no keepalive timer is armed at construction
(`clearTimeout` starts as the nil function). -/
def newRawPusher (timeout : Int) : RawPusher :=
  ⟨timeout, false, false, []⟩

/-- Errors a `rawPusher.Push` can return; `closedPipe` is `io.ErrClosedPipe`. -/
inductive PushOutcome
  | ok
  | closedPipe
deriving DecidableEq

/-- `rawPusher.Push`: under the mutex, fail with `io.ErrClosedPipe` if closed
(before touching the timer or the writer); otherwise cancel a pending
keepalive timer and arm a fresh one when `timeout > 0`, then copy the encoded
message (`io.Copy(p.w, msg)`, i.e. the bytes of `Message.Read`) to the writer. -/
def rawPusherPush (p : RawPusher) (m : Message) : RawPusher × PushOutcome :=
  if p.closed then (p, .closedPipe)
  else
    let p1 := if p.timeout > 0 then { p with clearTimeout := true } else p
    ({ p1 with written := p1.written ++ msgRead m }, .ok)

/-- `rawPusher.Close`: idempotent; marks the pusher closed and cancels any
pending keepalive timer.  Never returns an error. -/
def rawPusherClose (p : RawPusher) : RawPusher :=
  if p.closed then p
  else { p with closed := true, clearTimeout := false }

/-- The events that can act on a `rawPusher`: an application `Push`, an
explicit `Close`, and the expiry of the armed keepalive timer (`setTimeout`'s
goroutine invoking `rawPusher.ping`, which re-checks `closed` and then calls
`Push(NewPingEvent())`).  A timer can only fire while it is armed
(`clearTimeout` live) — otherwise the expiry event is a no-op. -/
inductive PusherEvent
  | push (m : Message)
  | timerFire
  | close

/-- One event against the pusher state.  The mutex discipline serializes the
events, so a run is a sequence of atomic steps. -/
def pusherStep (p : RawPusher) : PusherEvent → RawPusher
  | .push m => (rawPusherPush p m).1
  | .close => rawPusherClose p
  | .timerFire =>
    if p.clearTimeout ∧ ¬p.closed then (rawPusherPush p emptyMessage).1 else p

/-- Run a serialized sequence of pusher events. -/
def runPusher (p : RawPusher) (evs : List PusherEvent) : RawPusher :=
  evs.foldl pusherStep p

/-! ## Receiver (`receiver.go`) -/

/-- The observable state of a `receiver`: whether the underlying byte source
(`io.ReadCloser`) has been closed, the records produced by `Parse` that are
still to be delivered on the channel, and whether the producer has closed the
channel. -/
structure ReceiverState where
  sourceClosed : Bool
  pending : List Message
  chClosed : Bool
deriving DecidableEq

/-- Outcome of one `receiver.Receive` call. -/
inductive RecvOutcome
  | ok (m : Message)
  | eofEnd
  | canceled
deriving DecidableEq

/-- `receiver.Receive(ctx)`: a `select` between `ctx.Done()` and the message
channel.  `ctxDone` says whether the cancellation signal has fired; when it
has, the call returns `ctx.Err()` — and touches nothing else.  `none` models
the call blocking (no signal, no message, channel still open).  (When both
branches are ready Go picks one at random; the model resolves the race in
favour of cancellation, the most favourable reading for the spec's
cancellation claim.) -/
def receiverReceive (ctxDone : Bool) (st : ReceiverState) :
    Option (RecvOutcome × ReceiverState) :=
  if ctxDone then some (.canceled, st)
  else
    match st.pending with
    | m :: rest => some (.ok m, { st with pending := rest })
    | [] => if st.chClosed then some (.eofEnd, st) else none

/-- `receiver.Close`: `NewReceiver(rc)` stores `close: rc.Close`, so `Close`
closes the underlying byte source. -/
def receiverClose (st : ReceiverState) : ReceiverState :=
  { st with sourceClosed := true }

/-! ## HTTP-bound receiver reconnect policy

Modelled from the spec: the HTTP-bound receiver (`NewHttpReceiver` with
`WithMaxRetries`, `WithInitialDelay`, `WithMaxDelay` and its retry transport)
is not present under `src/` — only its tests are.  Per the spec, connection
attempts answered with a transient (5xx-class) status are retried up to the
configured maximum attempt count with increasing delays starting at the
initial delay and capped at the maximum delay, exhausting the attempts yields
a terminal "max retries exceeded" error, and a permanent (4xx-class) status
fails immediately without retry. -/

/-- Modelled from the spec: the delay before the `n`-th retry — increasing
from the initial delay, capped at the maximum delay ("capped exponential-ish
backoff"). -/
def backoffDelay (initialDelay maxDelay n : Nat) : Nat :=
  min (initialDelay * 2 ^ n) maxDelay

/-- Modelled from the spec: outcome of the connection-establishment loop. -/
inductive HttpConnectOutcome
  | connected
  | permanentFailure (code : Nat)
  | maxRetriesExceeded
deriving DecidableEq

/-- Modelled from the spec: the connection loop.  `server` gives the HTTP
status answered to each attempt (numbered from 0); `remaining` counts the
attempts still allowed, `made` the attempts already made.  Returns the outcome
and the total number of attempts performed. -/
def connectFrom (server : Nat → Nat) : Nat → Nat → HttpConnectOutcome × Nat
  | 0, made => (.maxRetriesExceeded, made)
  | remaining + 1, made =>
    let code := server made
    if 200 ≤ code ∧ code < 300 then (.connected, made + 1)
    else if 500 ≤ code ∧ code < 600 then connectFrom server remaining (made + 1)
    else (.permanentFailure code, made + 1)

/-- Modelled from the spec: establish a connection with at most `maxRetries`
attempts. -/
def httpConnect (server : Nat → Nat) (maxRetries : Nat) : HttpConnectOutcome × Nat :=
  connectFrom server maxRetries 0

/-! ## Helper lemmas -/

/-- `'\n'` does not occur in the concatenation of two `'\n'`-free lists. -/
theorem nlNotMemAppend (l1 v : List Char) (h1 : '\n' ∉ l1) (hv : '\n' ∉ v) :
    '\n' ∉ l1 ++ v :=
  fun h => (List.mem_append.mp h).elim h1 hv

/-- Splitting off the first (complete, `'\n'`-free) line of a byte sequence. -/
theorem splitSegs_append (l r : List Char) (h : '\n' ∉ l) :
    splitSegs (l ++ '\n' :: r) = l :: splitSegs r := by
  induction l with
  | nil => simp [splitSegs]
  | cons c cs ih =>
    have hc : ¬(c = '\n') := fun hc => h (by simp [hc])
    have hcs : '\n' ∉ cs := fun hm => h (List.mem_cons_of_mem _ hm)
    simp only [List.cons_append, splitSegs, if_neg hc, List.append_eq, ih hcs]

/-- An `id: ` line at the head of the decoder input. -/
theorem splitSegs_idLine (v r : List Char) (hv : '\n' ∉ v) :
    splitSegs ('i' :: 'd' :: ':' :: ' ' :: (v ++ '\n' :: r))
      = ('i' :: 'd' :: ':' :: ' ' :: v) :: splitSegs r :=
  splitSegs_append ('i' :: 'd' :: ':' :: ' ' :: v) r
    (nlNotMemAppend ['i', 'd', ':', ' '] v (by decide) hv)

/-- An `event: ` line at the head of the decoder input. -/
theorem splitSegs_eventLine (v r : List Char) (hv : '\n' ∉ v) :
    splitSegs ('e' :: 'v' :: 'e' :: 'n' :: 't' :: ':' :: ' ' :: (v ++ '\n' :: r))
      = ('e' :: 'v' :: 'e' :: 'n' :: 't' :: ':' :: ' ' :: v) :: splitSegs r :=
  splitSegs_append ('e' :: 'v' :: 'e' :: 'n' :: 't' :: ':' :: ' ' :: v) r
    (nlNotMemAppend ['e', 'v', 'e', 'n', 't', ':', ' '] v (by decide) hv)

/-- A `data: ` line at the head of the decoder input. -/
theorem splitSegs_dataLine (v r : List Char) (hv : '\n' ∉ v) :
    splitSegs ('d' :: 'a' :: 't' :: 'a' :: ':' :: ' ' :: (v ++ '\n' :: r))
      = ('d' :: 'a' :: 't' :: 'a' :: ':' :: ' ' :: v) :: splitSegs r :=
  splitSegs_append ('d' :: 'a' :: 't' :: 'a' :: ':' :: ' ' :: v) r
    (nlNotMemAppend ['d', 'a', 't', 'a', ':', ' '] v (by decide) hv)

/-- The decoder on an `id: ` line: sets the `Id` field and moves on. -/
theorem writeLines_id (m : Message) (v : List Char) (ls : List (List Char)) :
    writeLines m (('i' :: 'd' :: ':' :: ' ' :: v) :: ls)
      = writeLines { m with Id := v } ls := rfl

/-- The decoder on a `data: ` line: sets the `Data` field and moves on. -/
theorem writeLines_data (m : Message) (v : List Char) (ls : List (List Char)) :
    writeLines m (('d' :: 'a' :: 't' :: 'a' :: ':' :: ' ' :: v) :: ls)
      = writeLines { m with Data := v } ls := rfl

/-- The decoder on an `event: ` line whose value is not the reserved `ping`:
sets the `Event` field and moves on. -/
theorem writeLines_event (m : Message) (v : List Char) (ls : List (List Char))
    (h : v ≠ "ping".toList) :
    writeLines m (('e' :: 'v' :: 'e' :: 'n' :: 't' :: ':' :: ' ' :: v) :: ls)
      = writeLines { m with Event := v } ls := by
  have h1 : writeLine m ('e' :: 'v' :: 'e' :: 'n' :: 't' :: ':' :: ' ' :: v)
      = ({ m with Event := v }, false) := by
    show (if "event".toList = "event".toList ∧ v = "ping".toList
          then (emptyMessage, true)
          else (applyField m "event".toList v, false)) = ({ m with Event := v }, false)
    rw [if_neg fun hc => h hc.2]
    rfl
  show (match writeLine m ('e' :: 'v' :: 'e' :: 'n' :: 't' :: ':' :: ' ' :: v) with
        | (m', true) => m'
        | (m', false) => writeLines m' ls) = writeLines { m with Event := v } ls
  rw [h1]

/-! ## Claims about the frame codec -/

/-- C1, counterexample: the claim quantifies over all records with each field
independently present or absent, but the record whose event label is the
literal `ping` (event present, id and data absent — one of the 8 presence
combinations) does not survive the round trip: it encodes to
`"event: ping\n\n"`, which the decoder turns into the fully-empty record. -/
theorem c1_round_trip_counterexample :
    msgWrite (msgRead ⟨[], "ping".toList, []⟩) ≠ ⟨[], "ping".toList, []⟩ := by
  decide

/-- C1, amended: for every record whose field values contain no raw newline
(the codec's documented constraint) and whose event label is not the reserved
`ping`, with each of id/event/data independently present or absent and not all
three absent, decoding the encoding yields the record back:
`Decode(Encode(r)) = r`. -/
theorem c1_round_trip (id ev da : List Char)
    (hid : '\n' ∉ id) (hev : '\n' ∉ ev) (hda : '\n' ∉ da)
    (hping : ev ≠ "ping".toList)
    (hne : ¬(id = [] ∧ ev = [] ∧ da = [])) :
    msgWrite (msgRead ⟨id, ev, da⟩) = ⟨id, ev, da⟩ := by
  rcases eq_or_ne id [] with h1 | h1 <;> rcases eq_or_ne ev [] with h2 | h2 <;>
    rcases eq_or_ne da [] with h3 | h3
  · exact absurd ⟨h1, h2, h3⟩ hne
  · subst h1; subst h2
    have hb : msgRead ⟨[], [], da⟩
        = 'd' :: 'a' :: 't' :: 'a' :: ':' :: ' ' :: (da ++ '\n' :: ['\n']) := by
      simp [msgRead, h3]
    simp only [msgWrite]
    rw [hb, splitSegs_dataLine _ _ hda, writeLines_data]
    rfl
  · subst h1; subst h3
    have hb : msgRead ⟨[], ev, []⟩
        = 'e' :: 'v' :: 'e' :: 'n' :: 't' :: ':' :: ' ' :: (ev ++ '\n' :: ['\n']) := by
      simp [msgRead, h2]
    simp only [msgWrite]
    rw [hb, splitSegs_eventLine _ _ hev, writeLines_event _ _ _ hping]
    rfl
  · subst h1
    have hb : msgRead ⟨[], ev, da⟩
        = 'e' :: 'v' :: 'e' :: 'n' :: 't' :: ':' :: ' ' :: (ev ++ '\n' ::
          ('d' :: 'a' :: 't' :: 'a' :: ':' :: ' ' :: (da ++ '\n' :: ['\n']))) := by
      simp [msgRead, h2, h3]
    simp only [msgWrite]
    rw [hb, splitSegs_eventLine _ _ hev, splitSegs_dataLine _ _ hda,
      writeLines_event _ _ _ hping, writeLines_data]
    rfl
  · subst h2; subst h3
    have hb : msgRead ⟨id, [], []⟩
        = 'i' :: 'd' :: ':' :: ' ' :: (id ++ '\n' :: ['\n']) := by
      simp [msgRead, h1]
    simp only [msgWrite]
    rw [hb, splitSegs_idLine _ _ hid, writeLines_id]
    rfl
  · subst h2
    have hb : msgRead ⟨id, [], da⟩
        = 'i' :: 'd' :: ':' :: ' ' :: (id ++ '\n' ::
          ('d' :: 'a' :: 't' :: 'a' :: ':' :: ' ' :: (da ++ '\n' :: ['\n']))) := by
      simp [msgRead, h1, h3]
    simp only [msgWrite]
    rw [hb, splitSegs_idLine _ _ hid, splitSegs_dataLine _ _ hda,
      writeLines_id, writeLines_data]
    rfl
  · subst h3
    have hb : msgRead ⟨id, ev, []⟩
        = 'i' :: 'd' :: ':' :: ' ' :: (id ++ '\n' ::
          ('e' :: 'v' :: 'e' :: 'n' :: 't' :: ':' :: ' ' :: (ev ++ '\n' :: ['\n']))) := by
      simp [msgRead, h1, h2]
    simp only [msgWrite]
    rw [hb, splitSegs_idLine _ _ hid, splitSegs_eventLine _ _ hev,
      writeLines_id, writeLines_event _ _ _ hping]
    rfl
  · have hb : msgRead ⟨id, ev, da⟩
        = 'i' :: 'd' :: ':' :: ' ' :: (id ++ '\n' ::
          ('e' :: 'v' :: 'e' :: 'n' :: 't' :: ':' :: ' ' :: (ev ++ '\n' ::
          ('d' :: 'a' :: 't' :: 'a' :: ':' :: ' ' :: (da ++ '\n' :: ['\n']))))) := by
      simp [msgRead, h1, h2, h3]
    simp only [msgWrite]
    rw [hb, splitSegs_idLine _ _ hid, splitSegs_eventLine _ _ hev,
      splitSegs_dataLine _ _ hda, writeLines_id, writeLines_event _ _ _ hping,
      writeLines_data]
    rfl

/-- C1, witness: the amended round trip at the concrete record
`{id: "1", event: "test", data: "hello"}`. -/
theorem c1_round_trip_witness :
    ('\n' ∉ "1".toList ∧ '\n' ∉ "test".toList ∧ '\n' ∉ "hello".toList ∧
      "test".toList ≠ "ping".toList ∧
      ¬("1".toList = ([] : List Char) ∧ "test".toList = ([] : List Char) ∧
        "hello".toList = ([] : List Char))) ∧
    msgWrite (msgRead ⟨"1".toList, "test".toList, "hello".toList⟩)
      = ⟨"1".toList, "test".toList, "hello".toList⟩ :=
  ⟨⟨by decide, by decide, by decide, by decide, by decide⟩,
    c1_round_trip _ _ _ (by decide) (by decide) (by decide) (by decide) (by decide)⟩

/-- C10: whenever the codec decoder (`Message.Write`) reaches a field line
with name `event` and value `ping`, it clears id, event and data — whatever
the already-accumulated record `m` says — ignores every remaining line, and
returns the empty record; in particular the concrete frame
`"id: 5\nevent: ping\ndata: x\n\n"` decodes to the empty record, so an
application event literally named `ping` can never be decoded. -/
theorem c10_event_ping_clears :
    (∀ (m : Message) (ls : List (List Char)),
      writeLines m ("event: ping".toList :: ls) = emptyMessage) ∧
    msgWrite "id: 5\nevent: ping\ndata: x\n\n".toList = emptyMessage :=
  ⟨fun _ _ => rfl, by decide⟩

/-- C9, counterexample: the claim that every line with no `": "` separator is
skipped fails for the codec decoder `Message.Write`, which splits on a bare
`':'`.  The line `"id:5"` has no `": "` yet decoding `"id:5\n\n"` sets the id
field (instead of the empty record that skipping would leave), and the line
`"event:ping"` has no `": "` yet decoding `"id: 5\nevent:ping\ndata: z\n\n"`
triggers the ping reset — the accumulated id is wiped, the remaining input is
abandoned, and the result is the empty record rather than
`{id:"5", data:"z"}`. -/
theorem c9_counterexample :
    (splitSep "id:5".toList = none ∧
      msgWrite "id:5\n\n".toList = ⟨"5".toList, [], []⟩ ∧
      msgWrite "id:5\n\n".toList ≠ msgWrite "\n\n".toList) ∧
    (splitSep "event:ping".toList = none ∧
      msgWrite "id: 5\nevent:ping\ndata: z\n\n".toList = emptyMessage ∧
      msgWrite "id: 5\nevent:ping\ndata: z\n\n".toList
        ≠ ⟨"5".toList, [], "z".toList⟩) := by
  constructor <;> refine ⟨by decide, by decide, by decide⟩

/-- C9, amended: the two decoders skip different malformed lines.  The stream
decoder (`parseMessage`) skips every non-empty, non-comment line without the
two-byte `": "` separator, leaving record and comment flag unchanged.  The
codec decoder (`Message.Write`) skips only lines without any `':'`; a line
with a bare `':'` but no `": "` is still parsed as a field — the name is the
part before the first `':'`, one optional space after the colon is consumed,
and the rest of the line is the value (so `"id:"`‑style lines like `"id:5"`
set the field, and `"event:ping"` triggers the ping reset).  Neither decoder
has an error outcome for malformed input — both embeddings are total
functions, so decoding always returns. -/
theorem c9_malformed_line_skipped :
    (∀ (m : Message) (f : Bool) (line : List Char) (ls : List (List Char)),
      line ≠ [] → line.head? ≠ some ':' → splitSep line = none →
      parseMsgLines m f (line :: ls) = parseMsgLines m f ls) ∧
    (∀ (m : Message) (line : List Char) (ls : List (List Char)),
      splitColon line = none → writeLines m (line :: ls) = writeLines m ls) ∧
    (∀ (m : Message) (v : List Char) (ls : List (List Char)),
      writeLines m (('i' :: 'd' :: ':' :: v) :: ls)
        = writeLines { m with Id := if v.head? = some ' ' then v.tail else v } ls) := by
  refine ⟨?_, ?_, ?_⟩
  · intro m f line ls h1 h2 h3
    simp [parseMsgLines, h1, h2, h3]
  · intro m line ls h
    simp [writeLines, writeLine, h]
  · intro m v ls
    rfl

/-- C9, witness: the malformed line `"garbage"` (no separator at all) is
skipped by both decoders, and the bare-colon line `"id:5"` is parsed as an id
field by the codec decoder. -/
theorem c9_malformed_line_skipped_witness :
    ("garbage".toList ≠ ([] : List Char) ∧ "garbage".toList.head? ≠ some ':' ∧
      splitSep "garbage".toList = none ∧ splitColon "garbage".toList = none) ∧
    parseMsgLines emptyMessage false ["garbage".toList]
      = parseMsgLines emptyMessage false [] ∧
    writeLines emptyMessage ["garbage".toList] = writeLines emptyMessage [] ∧
    writeLines emptyMessage ["id:5".toList]
      = writeLines ⟨"5".toList, [], []⟩ [] :=
  ⟨⟨by decide, by decide, by decide, by decide⟩,
    c9_malformed_line_skipped.1 emptyMessage false "garbage".toList []
      (by decide) (by decide) (by decide),
    c9_malformed_line_skipped.2.1 emptyMessage "garbage".toList [] (by decide),
    c9_malformed_line_skipped.2.2 emptyMessage "5".toList []⟩

/-! ## Claims about the stream decoder -/

/-- C4: the concrete scenario — the input bytes
`"id: 1\nevent: test\ndata: hello\n\nid: 2\nevent: done\ndata: finished\n\n"`
decode to exactly two records, `{id:"1", event:"test", data:"hello"}` then
`{id:"2", event:"done", data:"finished"}`, and the sequence ends after the
second one (the terminal `event: done` record is forwarded once and the
producer returns, closing the channel, so no further pull succeeds). -/
theorem c4_concrete_scenario :
    parseRecords
        "id: 1\nevent: test\ndata: hello\n\nid: 2\nevent: done\ndata: finished\n\n".toList
      = [⟨"1".toList, "test".toList, "hello".toList⟩,
         ⟨"2".toList, "done".toList, "finished".toList⟩] := by
  decide

/-- C3: evaluating `Parse` at the failing input.  Interspersing the single
comment line `": k\n"` between the first and second frame of a three-frame
stream loses the record `{data:"b"}`: the stream with the comment decodes to
`[{data:"a"}, {data:"c"}, {}]`, while the same stream without it decodes to
`[{data:"a"}, {data:"b"}, {data:"c"}, {}]` — because the comment sets the
`lastMsgWasComment` flag, which then swallows the blank line that should have
terminated the `data: b` frame, merging that frame with the next one. -/
theorem c3_comment_drops_record :
    parseRecords "data: a\n\n: k\ndata: b\n\ndata: c\n\n".toList
      = [⟨[], [], "a".toList⟩, ⟨[], [], "c".toList⟩, emptyMessage] ∧
    parseRecords "data: a\n\ndata: b\n\ndata: c\n\n".toList
      = [⟨[], [], "a".toList⟩, ⟨[], [], "b".toList⟩, ⟨[], [], "c".toList⟩,
         emptyMessage] := by
  constructor <;> decide

/-! ## Further helper lemmas (stream decoder) -/

/-- Splitting off the first complete line of a byte stream. -/
theorem streamLines_append (l : List Char) (h : '\n' ∉ l) :
    ∀ (acc r : List Char),
      streamLines acc (l ++ '\n' :: r) = (acc ++ l) :: streamLines [] r := by
  induction l with
  | nil => intro acc r; simp [streamLines]
  | cons c cs ih =>
    intro acc r
    have hc : ¬(c = '\n') := fun hc => h (by simp [hc])
    have hcs : '\n' ∉ cs := fun hm => h (List.mem_cons_of_mem _ hm)
    simp only [List.cons_append, streamLines, if_neg hc, List.append_eq]
    rw [ih hcs (acc ++ [c]) r]
    simp

/-- A comment line plus a blank line at the start of a frame are consumed by
`parseMessage` without touching its state: the comment sets
`lastMsgWasComment`, and the following empty line only resets that flag. -/
theorem parseMsgLines_comment (m : Message) (cl : List Char) (ls : List (List Char))
    (h : cl.head? = some ':') :
    parseMsgLines m false (cl :: [] :: ls) = parseMsgLines m false ls := by
  have hne : cl ≠ [] := by intro he; rw [he] at h; simp at h
  simp [parseMsgLines, hne, h]

/-- When `parseMessage` terminates at a frame boundary (not at end of stream),
it has consumed at least one line. -/
theorem parseMsgLines_rest_length (ls : List (List Char)) :
    ∀ (m : Message) (f : Bool) (msg : Message) (rest : List (List Char)),
      parseMsgLines m f ls = (msg, false, rest) → rest.length < ls.length := by
  induction ls with
  | nil =>
    intro m f msg rest h
    simp [parseMsgLines] at h
  | cons line tail ih =>
    intro m f msg rest' h
    by_cases h1 : line = []
    · subst h1
      cases f with
      | true =>
        have h' : parseMsgLines m false tail = (msg, false, rest') := by
          simpa [parseMsgLines] using h
        exact Nat.lt_succ_of_lt (ih m false msg rest' h')
      | false =>
        have h2 : tail = rest' := by
          simp [parseMsgLines] at h
          exact h.2
        rw [← h2]
        exact Nat.lt_succ_self _
    · by_cases h2 : line.head? = some ':'
      · have h' : parseMsgLines m true tail = (msg, false, rest') := by
          simpa [parseMsgLines, h1, h2] using h
        exact Nat.lt_succ_of_lt (ih m true msg rest' h')
      · rcases h3 : splitSep line with _ | ⟨name, value⟩
        · have h' : parseMsgLines m f tail = (msg, false, rest') := by
            simpa [parseMsgLines, h1, h2, h3] using h
          exact Nat.lt_succ_of_lt (ih m f msg rest' h')
        · have h' : parseMsgLines (applyRecvField m name value) f tail
              = (msg, false, rest') := by
            simpa [parseMsgLines, h1, h2, h3] using h
          exact Nat.lt_succ_of_lt (ih _ f msg rest' h')

/-- The fuel of `parseRecordsAux` is irrelevant as soon as it exceeds the
number of lines: each producer turn strictly consumes lines. -/
theorem parseRecordsAux_fuel (f1 : Nat) :
    ∀ (f2 : Nat) (ls : List (List Char)), ls.length < f1 → ls.length < f2 →
      parseRecordsAux f1 ls = parseRecordsAux f2 ls := by
  induction f1 with
  | zero => intro f2 ls h1 _; exact absurd h1 (Nat.not_lt_zero _)
  | succ g ih =>
    intro f2 ls h1 h2
    cases f2 with
    | zero => exact absurd h2 (Nat.not_lt_zero _)
    | succ k =>
      rcases hp : parseMsgLines emptyMessage false ls with ⟨msg, b, rest⟩
      cases b with
      | true =>
        show (match parseMsgLines emptyMessage false ls with
              | (msg, true, _) => [msg]
              | (msg, false, rest) =>
                if msg.Event = "done".toList then [msg]
                else msg :: parseRecordsAux g rest) =
             (match parseMsgLines emptyMessage false ls with
              | (msg, true, _) => [msg]
              | (msg, false, rest) =>
                if msg.Event = "done".toList then [msg]
                else msg :: parseRecordsAux k rest)
        rw [hp]
      | false =>
        have hl := parseMsgLines_rest_length ls emptyMessage false msg rest hp
        show (match parseMsgLines emptyMessage false ls with
              | (msg, true, _) => [msg]
              | (msg, false, rest) =>
                if msg.Event = "done".toList then [msg]
                else msg :: parseRecordsAux g rest) =
             (match parseMsgLines emptyMessage false ls with
              | (msg, true, _) => [msg]
              | (msg, false, rest) =>
                if msg.Event = "done".toList then [msg]
                else msg :: parseRecordsAux k rest)
        rw [hp]
        show (if msg.Event = "done".toList then [msg] else msg :: parseRecordsAux g rest)
          = (if msg.Event = "done".toList then [msg] else msg :: parseRecordsAux k rest)
        by_cases hd : msg.Event = "done".toList
        · rw [if_pos hd, if_pos hd]
        · rw [if_neg hd, if_neg hd, ih k rest (by omega) (by omega)]

/-- Two line lists on which `parseMessage` agrees (and both of which outlast
their fuel) yield the same record sequence. -/
theorem parseRecordsAux_congr (f k : Nat) (ls1 ls2 : List (List Char))
    (hm : parseMsgLines emptyMessage false ls1 = parseMsgLines emptyMessage false ls2)
    (h1 : ls1.length < f) (h2 : ls2.length < k) :
    parseRecordsAux f ls1 = parseRecordsAux k ls2 := by
  cases f with
  | zero => exact absurd h1 (Nat.not_lt_zero _)
  | succ g =>
    cases k with
    | zero => exact absurd h2 (Nat.not_lt_zero _)
    | succ j =>
      show (match parseMsgLines emptyMessage false ls1 with
            | (msg, true, _) => [msg]
            | (msg, false, rest) =>
              if msg.Event = "done".toList then [msg]
              else msg :: parseRecordsAux g rest) =
           (match parseMsgLines emptyMessage false ls2 with
            | (msg, true, _) => [msg]
            | (msg, false, rest) =>
              if msg.Event = "done".toList then [msg]
              else msg :: parseRecordsAux j rest)
      rw [hm]
      rcases hp : parseMsgLines emptyMessage false ls2 with ⟨msg, b, rest⟩
      cases b with
      | true => rfl
      | false =>
        have hl1 : rest.length < ls1.length :=
          parseMsgLines_rest_length ls1 emptyMessage false msg rest (by rw [hm, hp])
        have hl2 : rest.length < ls2.length :=
          parseMsgLines_rest_length ls2 emptyMessage false msg rest hp
        show (if msg.Event = "done".toList then [msg] else msg :: parseRecordsAux g rest)
          = (if msg.Event = "done".toList then [msg] else msg :: parseRecordsAux j rest)
        by_cases hd : msg.Event = "done".toList
        · rw [if_pos hd, if_pos hd]
        · rw [if_neg hd, if_neg hd, parseRecordsAux_fuel g j rest (by omega) (by omega)]

/-! ## Claims C2, C5, C6, C7, C8 -/

/-- C2, counterexample: the record sequence produced by `Parse` can contain a
fully-empty (ping-shaped) record — on the empty byte stream, `Parse` forwards
the empty record produced by the final `parseMessage` call (the one that hits
`io.EOF`) before closing the channel. -/
theorem c2_counterexample : emptyMessage ∈ parseRecords [] := by
  decide

/-- C2, amended: a ping-shaped frame (`": ping\n\n"`, a comment line plus its
blank line) at the head of the stream is consumed and discarded —
`Parse` yields exactly the records of the remaining stream — but fully-empty
records are not filtered out: the record forwarded when the stream ends at
`io.EOF` can be fully empty (on the empty stream it is the only record). -/
theorem c2_ping_discarded :
    (∀ rest : List Char,
      parseRecords (": ping\n\n".toList ++ rest) = parseRecords rest) ∧
    parseRecords [] = [emptyMessage] := by
  constructor
  · intro rest
    have h1 : streamLines [] (": ping\n\n".toList ++ rest)
        = ([] ++ ": ping".toList) :: streamLines [] ('\n' :: rest) :=
      streamLines_append ": ping".toList (by decide) [] ('\n' :: rest)
    have hs : streamLines [] (": ping\n\n".toList ++ rest)
        = ": ping".toList :: [] :: streamLines [] rest := by
      rw [h1]
      simp [streamLines]
    simp only [parseRecords]
    rw [hs]
    exact parseRecordsAux_congr _ _ _ _
      (parseMsgLines_comment emptyMessage ": ping".toList _ (by decide))
      (Nat.lt_succ_self _) (Nat.lt_succ_self _)
  · decide

/-- C5: calling `Push` on a closed `rawPusher` fails with `io.ErrClosedPipe`
and performs no I/O — the returned state is the input state unchanged (nothing
appended to the writer log, no timer change). -/
theorem c5_push_after_close (p : RawPusher) (m : Message) (h : p.closed = true) :
    rawPusherPush p m = (p, .closedPipe) := by
  simp [rawPusherPush, h]

/-- C5, witness: pushing `{id:"1"}` on a concrete closed pusher fails with the
closed error and leaves the writer log `"x"` and the timer state untouched. -/
theorem c5_push_after_close_witness :
    (RawPusher.mk 50 false true "x".toList).closed = true ∧
    rawPusherPush (RawPusher.mk 50 false true "x".toList) ⟨"1".toList, [], []⟩
      = (RawPusher.mk 50 false true "x".toList, .closedPipe) :=
  ⟨rfl, c5_push_after_close _ _ rfl⟩

/-- C6, counterexample: in `receiver.go`, a `Receive` call whose cancellation
signal has fired returns the cancellation error but does NOT close the
underlying byte source — the receiver state (including `sourceClosed = false`)
is returned untouched, so the producer is not unblocked by the cancelled call. -/
theorem c6_cancel_counterexample :
    receiverReceive true ⟨false, [], false⟩
      = some (.canceled, ⟨false, [], false⟩) ∧
    (ReceiverState.mk false [] false).sourceClosed = false := by
  decide

/-- C6, amended: when the cancellation signal fires, `Receive` returns the
cancellation error with the receiver state unchanged (in particular the byte
source stays open); the underlying byte source is closed only by the
receiver's separate `Close` method, which `NewReceiver` wires to the source's
own `Close`. -/
theorem c6_cancellation (st : ReceiverState) :
    receiverReceive true st = some (.canceled, st) ∧
    (receiverClose st).sourceClosed = true :=
  ⟨rfl, rfl⟩

/-- C7: evaluating the pusher at the failing input.  A pusher freshly built by
`NewPusher` with a positive (50 unit) ping timeout has no keepalive timer
armed, so without any application `Push` the timer can never fire: after any
number of timer-expiry opportunities the state is still the fresh state and
nothing — in particular not a single ping frame — has been written.  The
keepalive mechanism itself works only after a first push: one application push
followed by two timer expiries writes the application frame and then exactly
two ping frames. -/
theorem c7_keepalive :
    (∀ n : Nat,
      runPusher (newRawPusher 50) (List.replicate n .timerFire) = newRawPusher 50) ∧
    (runPusher (newRawPusher 50)
        [.push ⟨"1".toList, "e".toList, "d".toList⟩, .timerFire, .timerFire]).written
      = msgRead ⟨"1".toList, "e".toList, "d".toList⟩
        ++ ": ping\n\n".toList ++ ": ping\n\n".toList := by
  constructor
  · intro n
    induction n with
    | zero => rfl
    | succ k ih =>
      rw [List.replicate_succ]
      exact ih
  · decide

/-- C8 (modelled from the spec): transient 5xx statuses are retried up to the
configured maximum attempt count and exhausting it yields the terminal
"max retries exceeded" outcome — with max-retries = 2 against a server that
always answers 500, the connection loop fails with `maxRetriesExceeded` after
exactly 2 attempts; a permanent 4xx status (404) fails immediately after a
single attempt, with zero retries; and the backoff delays between attempts are
nondecreasing and capped at the maximum delay. -/
theorem c8_retry_policy :
    httpConnect (fun _ => 500) 2 = (.maxRetriesExceeded, 2) ∧
    httpConnect (fun _ => 404) 2 = (.permanentFailure 404, 1) ∧
    ∀ (i m n : Nat), backoffDelay i m n ≤ m ∧
      backoffDelay i m n ≤ backoffDelay i m (n + 1) := by
  refine ⟨by decide, by decide, ?_⟩
  intro i m n
  constructor
  · exact Nat.min_le_right _ _
  · have h2 : i * 2 ^ n ≤ i * 2 ^ (n + 1) :=
      Nat.mul_le_mul_left i (Nat.pow_le_pow_right (by omega) (Nat.le_succ n))
    exact min_le_min h2 le_rfl

end SSE

